import Mathlib

/-!
# A shallow embedding of the unbuffered worker pool
(`src/concurrency/worker_unbuffed/main.go`)

The Go program defines a `Pool` with an unbuffered channel `work : chan Worker`,
an unbuffered channel `errChan : chan error` and a `sync.WaitGroup wg`:

* `New(maxGoroutines)` does `wg.Add(maxGoroutines)` and spawns `maxGoroutines`
  goroutines, each running `for w := range p.work { p.errChan <- w.Task() }`
  followed by `p.wg.Done()`.
* `Run(w)` does `p.work <- w` and then a (single-case `select`) blocking
  receive `err = <-p.errChan`, returning `err`.
* `Shutdown()` does `close(p.work); close(p.errChan); p.wg.Wait()`.

We model the whole system as a nondeterministic labelled transition system.
Each goroutine (worker, `Run` caller, `Shutdown` caller) is at one of the
program points of its Go code; a `Move` names which goroutine performs which
atomic channel/WaitGroup action.  Go's unbuffered-channel semantics dictate
the rules: a send and its matching receive complete as one rendezvous event;
a send on a closed channel panics; a receive on a closed (empty) channel
yields the zero value immediately; closing a closed channel panics.
-/

namespace WorkerPool

/-- A task submitted to the pool.  `Task()` is opaque to the pool, so a task
is modelled by an identifier together with the outcome its `Task()` call
produces: `none` is a `nil` error, `some e` the error value `e`. -/
structure Task where
  id : Nat
  res : Option Nat
deriving DecidableEq, Repr

/-- Program point of one pool goroutine, i.e. one iteration position of
`for w := range p.work { p.errChan <- w.Task() }` followed by `wg.Done()`. -/
inductive WorkerSt
  /-- blocked receiving on the unbuffered `work` channel (`range p.work`). -/
  | idle
  /-- running `w.Task()`. -/
  | executing (t : Task)
  /-- `Task()` finished with result `r`; blocked sending on `errChan`. -/
  | sendingRes (r : Option Nat)
  /-- the `range` loop observed closure and `wg.Done()` has run. -/
  | exited
  /-- the goroutine panicked (send on closed `errChan`). -/
  | panicked
deriving DecidableEq, Repr

/-- Program point of one `Run` caller. -/
inductive CallerSt
  /-- blocked at `p.work <- w`. -/
  | sendingWork (t : Task)
  /-- handoff done; blocked at `err = <-p.errChan`. -/
  | awaitingRes (t : Task)
  /-- `Run` returned the outcome `r`. -/
  | returned (t : Task) (r : Option Nat)
  /-- the caller panicked (send on closed `work` channel). -/
  | panicked (t : Task)
deriving DecidableEq, Repr

/-- Program point of one `Shutdown` caller. -/
inductive SdSt
  /-- about to execute `close(p.work)`. -/
  | atCloseWork
  /-- about to execute `close(p.errChan)`. -/
  | atCloseErr
  /-- blocked in `p.wg.Wait()`. -/
  | atWait
  /-- `Shutdown` returned. -/
  | returned
  /-- the caller panicked (close of an already-closed channel). -/
  | panicked
deriving DecidableEq, Repr

/-- Global state: the pool's two channels' closed flags, the WaitGroup
counter, the worker goroutines (by index), and the `Run` / `Shutdown`
callers (association lists keyed by a caller identifier).  `submitted` is a
ghost log of every task ever passed to `Run`; it does not influence any
transition. -/
structure PoolState where
  workClosed : Bool
  errClosed : Bool
  wgCount : Nat
  workers : List WorkerSt
  callers : List (Nat × CallerSt)
  sds : List (Nat × SdSt)
  submitted : List Task
deriving DecidableEq, Repr

/-- First binding of key `k` in an association list. -/
def lookupA {α : Type} (l : List (Nat × α)) (k : Nat) : Option α :=
  (l.find? (fun p => p.1 == k)).map (·.2)

/-- Rebind the first binding of key `k` to `v`. -/
def updA {α : Type} (l : List (Nat × α)) (k : Nat) (v : α) : List (Nat × α) :=
  match l with
  | [] => []
  | p :: rest => if p.1 == k then (k, v) :: rest else p :: updA rest k v

/-- `New` (`main.go` lines 41–60): both channels open, `wg.Add(maxGoroutines)`,
and `maxGoroutines` workers spawned, each initially blocked on `range p.work`. -/
def New (maxGoroutines : Nat) : PoolState :=
  { workClosed := false
    errClosed := false
    wgCount := maxGoroutines
    workers := List.replicate maxGoroutines .idle
    callers := []
    sds := []
    submitted := [] }

/-- One atomic event of the system, naming the goroutines involved. -/
inductive Move
  /-- a new goroutine calls `p.Run(t)` under fresh caller id `c`. -/
  | newRun (c : Nat) (t : Task)
  /-- rendezvous on `work`: caller `c`'s send is received by idle worker `i`. -/
  | handoff (c : Nat) (i : Nat)
  /-- caller `c`'s `p.work <- w` panics: the channel is closed. -/
  | sendClosedWork (c : Nat)
  /-- worker `i`'s `w.Task()` call returns. -/
  | finishTask (i : Nat)
  /-- rendezvous on `errChan`: worker `i`'s result is received by caller `c`
  (any caller blocked at `<-p.errChan` — the channel is shared). -/
  | deliver (i : Nat) (c : Nat)
  /-- worker `i`'s `p.errChan <- r` panics: the channel is closed. -/
  | sendClosedErr (i : Nat)
  /-- caller `c`'s `<-p.errChan` yields the zero value `nil`: closed channel. -/
  | recvClosedErr (c : Nat)
  /-- worker `i`'s `range` observes closure; it runs `wg.Done()` and exits. -/
  | workerExit (i : Nat)
  /-- a new goroutine calls `p.Shutdown()` under fresh id `sd`. -/
  | newShutdown (sd : Nat)
  /-- shutdown caller `sd` executes `close(p.work)` (panics if closed). -/
  | sdCloseWork (sd : Nat)
  /-- shutdown caller `sd` executes `close(p.errChan)` (panics if closed). -/
  | sdCloseErr (sd : Nat)
  /-- shutdown caller `sd`'s `p.wg.Wait()` returns: the counter is zero. -/
  | sdWait (sd : Nat)
deriving DecidableEq, Repr

/-- The transition function: `step s m = some s'` iff event `m` is enabled in
`s` and leads to `s'`.  Each rule transcribes one line of `main.go` plus Go's
channel/WaitGroup semantics. -/
def step (s : PoolState) : Move → Option PoolState
  | .newRun c t =>
      if (lookupA s.callers c).isSome then none
      else some { s with callers := (c, .sendingWork t) :: s.callers
                         submitted := t :: s.submitted }
  | .handoff c i =>
      match lookupA s.callers c, s.workers[i]? with
      | some (.sendingWork t), some .idle =>
          if s.workClosed then none
          else some { s with callers := updA s.callers c (.awaitingRes t)
                             workers := s.workers.set i (.executing t) }
      | _, _ => none
  | .sendClosedWork c =>
      match lookupA s.callers c with
      | some (.sendingWork t) =>
          if s.workClosed then
            some { s with callers := updA s.callers c (.panicked t) }
          else none
      | _ => none
  | .finishTask i =>
      match s.workers[i]? with
      | some (.executing t) =>
          some { s with workers := s.workers.set i (.sendingRes t.res) }
      | _ => none
  | .deliver i c =>
      match s.workers[i]?, lookupA s.callers c with
      | some (.sendingRes r), some (.awaitingRes t) =>
          if s.errClosed then none
          else some { s with workers := s.workers.set i .idle
                             callers := updA s.callers c (.returned t r) }
      | _, _ => none
  | .sendClosedErr i =>
      match s.workers[i]? with
      | some (.sendingRes _) =>
          if s.errClosed then
            some { s with workers := s.workers.set i .panicked }
          else none
      | _ => none
  | .recvClosedErr c =>
      match lookupA s.callers c with
      | some (.awaitingRes t) =>
          if s.errClosed then
            some { s with callers := updA s.callers c (.returned t none) }
          else none
      | _ => none
  | .workerExit i =>
      match s.workers[i]? with
      | some .idle =>
          if s.workClosed then
            some { s with workers := s.workers.set i .exited
                          wgCount := s.wgCount - 1 }
          else none
      | _ => none
  | .newShutdown sd =>
      if (lookupA s.sds sd).isSome then none
      else some { s with sds := (sd, .atCloseWork) :: s.sds }
  | .sdCloseWork sd =>
      match lookupA s.sds sd with
      | some .atCloseWork =>
          if s.workClosed then some { s with sds := updA s.sds sd .panicked }
          else some { s with workClosed := true
                             sds := updA s.sds sd .atCloseErr }
      | _ => none
  | .sdCloseErr sd =>
      match lookupA s.sds sd with
      | some .atCloseErr =>
          if s.errClosed then some { s with sds := updA s.sds sd .panicked }
          else some { s with errClosed := true
                             sds := updA s.sds sd .atWait }
      | _ => none
  | .sdWait sd =>
      match lookupA s.sds sd with
      | some .atWait =>
          if s.wgCount == 0 then some { s with sds := updA s.sds sd .returned }
          else none
      | _ => none

/-- Execute a schedule (list of events) from a state; `none` when some event
is not enabled. -/
def runTrace (s : PoolState) : List Move → Option PoolState
  | [] => some s
  | m :: ms =>
      match step s m with
      | some s' => runTrace s' ms
      | none => none

/-- Is this worker currently inside `Task()`? -/
def isExecutingW : WorkerSt → Bool
  | .executing _ => true
  | _ => false

/-- Has this worker run `wg.Done()` and exited? -/
def isExitedW : WorkerSt → Bool
  | .exited => true
  | _ => false

/-- Is this worker holding a task or its result (between handoff and result
delivery)? -/
def isBusyW : WorkerSt → Bool
  | .executing _ => true
  | .sendingRes _ => true
  | _ => false

/-- Is this `Run` call still in flight (not returned, not panicked)? -/
def isInflightC : CallerSt → Bool
  | .sendingWork _ => true
  | .awaitingRes _ => true
  | _ => false

/-- Is this `Run` call blocked at `<-p.errChan`? -/
def isAwaitingC : CallerSt → Bool
  | .awaitingRes _ => true
  | _ => false

/-- The task a `Run` caller submitted. -/
def taskOf : CallerSt → Task
  | .sendingWork t => t
  | .awaitingRes t => t
  | .returned t _ => t
  | .panicked t => t

/-- Number of workers currently inside `Task()`. -/
def countExecuting (s : PoolState) : Nat :=
  s.workers.countP isExecutingW

/-- Number of workers that have run `wg.Done()` and exited. -/
def countExited (s : PoolState) : Nat :=
  s.workers.countP isExitedW

/-- Number of workers holding a task or an undelivered result. -/
def busyCount (s : PoolState) : Nat :=
  s.workers.countP isBusyW

/-- Number of `Run` calls in flight. -/
def inflightCount (s : PoolState) : Nat :=
  s.callers.countP (fun p => isInflightC p.2)

/-- Number of `Run` calls blocked at `<-p.errChan`. -/
def awaitingCount (s : PoolState) : Nat :=
  s.callers.countP (fun p => isAwaitingC p.2)

/-! ## The inductive invariant of a pool created by `New n` -/

/-- Facts preserved by every transition of a pool created with `New n`. -/
structure PoolInv (n : Nat) (s : PoolState) : Prop where
  /-- the number of worker goroutines never changes. -/
  len : s.workers.length = n
  /-- the WaitGroup counter plus the number of workers that called `Done`
  is the initial `wg.Add(n)` amount: each worker calls `Done` exactly once. -/
  wg : s.wgCount + countExited s = n
  /-- `wg.Wait()` (hence `Shutdown`) returns only with a zero counter. -/
  sdRet : ∀ sd, lookupA s.sds sd = some SdSt.returned → s.wgCount = 0
  /-- past `close(p.work)`, the `work` channel is closed. -/
  sdClosedW : ∀ sd st, lookupA s.sds sd = some st →
    st = SdSt.atCloseErr ∨ st = SdSt.atWait ∨ st = SdSt.returned →
    s.workClosed = true
  /-- past `close(p.errChan)`, the `errChan` channel is closed. -/
  sdClosedE : ∀ sd st, lookupA s.sds sd = some st →
    st = SdSt.atWait ∨ st = SdSt.returned → s.errClosed = true
  /-- with no `Shutdown` call ever made, both channels are open. -/
  sdsFlags : s.sds = [] → s.workClosed = false ∧ s.errClosed = false
  /-- an outcome returned by `Run` is the `nil` zero value or the verbatim
  `Task()` result of some submitted task. -/
  retRes : ∀ c t r, lookupA s.callers c = some (CallerSt.returned t r) →
    r = none ∨ ∃ t' ∈ s.submitted, t'.res = r
  /-- an undelivered worker result is the verbatim `Task()` result of some
  submitted task. -/
  wres : ∀ (i : Nat) (r : Option Nat),
    s.workers[i]? = some (WorkerSt.sendingRes r) →
    ∃ t' ∈ s.submitted, t'.res = r
  /-- a task being executed was submitted. -/
  wexec : ∀ (i : Nat) (t : Task),
    s.workers[i]? = some (WorkerSt.executing t) → t ∈ s.submitted
  /-- every caller's task was submitted. -/
  ctask : ∀ c st, lookupA s.callers c = some st → taskOf st ∈ s.submitted

/-- Invariant along single-caller schedules: every result held inside a
worker is the `Task()` result of the task of the one waiting caller, and a
returned `Run` call carries its own task's result. -/
structure SeqInv (s : PoolState) : Prop where
  execPaired : ∀ (i : Nat) (t : Task),
    s.workers[i]? = some (WorkerSt.executing t) →
    ∃ c, lookupA s.callers c = some (CallerSt.awaitingRes t)
  resPaired : ∀ (i : Nat) (r : Option Nat),
    s.workers[i]? = some (WorkerSt.sendingRes r) →
    ∃ c t, lookupA s.callers c = some (CallerSt.awaitingRes t) ∧ r = t.res
  retOwn : ∀ (c : Nat) (t : Task) (r : Option Nat),
    lookupA s.callers c = some (CallerSt.returned t r) → r = t.res
  busyAw : busyCount s ≤ awaitingCount s

/-- Bool check of the single-caller regime: after every prefix of the
schedule, at most one `Run` call is in flight and no `Shutdown` call has been
made. -/
def seqOKb (s : PoolState) (ms : List Move) : Bool :=
  (List.range (ms.length + 1)).all (fun k =>
    match runTrace s (ms.take k) with
    | none => true
    | some s₁ => decide (inflightCount s₁ ≤ 1) && s₁.sds.isEmpty)

/-! ## Concrete schedules used as evidence -/

/-- Two concurrent `Run` calls on `New 2`: caller 1 submits a slow succeeding
task, caller 2 a failing one; worker 1 finishes caller 2's task and the
shared `errChan` delivers its outcome to caller 1. -/
def mixTrace : List Move :=
  [.newRun 1 ⟨1, none⟩, .handoff 1 0, .newRun 2 ⟨2, some 7⟩, .handoff 2 1,
   .finishTask 1, .deliver 1 1]

/-- The state `mixTrace` reaches: caller 1's `Run` has returned `some 7`
(caller 2's failure) while caller 1's own task is still executing. -/
def mixState : PoolState :=
  { workClosed := false
    errClosed := false
    wgCount := 2
    workers := [.executing ⟨1, none⟩, .idle]
    callers := [(2, .awaitingRes ⟨2, some 7⟩), (1, .returned ⟨1, none⟩ (some 7))]
    sds := []
    submitted := [⟨2, some 7⟩, ⟨1, none⟩] }

/-- Variant of `mixTrace` with failure value `5`, for the error-routing claim. -/
def crossTrace : List Move :=
  [.newRun 1 ⟨1, none⟩, .handoff 1 0, .newRun 2 ⟨2, some 5⟩, .handoff 2 1,
   .finishTask 1, .deliver 1 1]

/-- The state `crossTrace` reaches. -/
def crossState : PoolState :=
  { workClosed := false
    errClosed := false
    wgCount := 2
    workers := [.executing ⟨1, none⟩, .idle]
    callers := [(2, .awaitingRes ⟨2, some 5⟩), (1, .returned ⟨1, none⟩ (some 5))]
    sds := []
    submitted := [⟨2, some 5⟩, ⟨1, none⟩] }

/-- `crossState` after worker 0 finishes its task. -/
def crossStepped : PoolState :=
  { crossState with workers := [.sendingRes none, .idle] }

/-- `Shutdown` racing a worker's in-flight task on `New 1`: both closes run
while the worker is still inside `Task()`; the worker then finishes and its
`p.errChan <- w.Task()` hits the closed channel. -/
def panicTrace : List Move :=
  [.newRun 1 ⟨1, none⟩, .handoff 1 0, .newShutdown 0, .sdCloseWork 0,
   .sdCloseErr 0, .finishTask 0, .sendClosedErr 0]

/-- The state `panicTrace` reaches: the only worker has panicked and the
WaitGroup counter is stuck at 1. -/
def panickedState : PoolState :=
  { workClosed := true
    errClosed := true
    wgCount := 1
    workers := [.panicked]
    callers := [(1, .awaitingRes ⟨1, none⟩)]
    sds := [(0, .atWait)]
    submitted := [⟨1, none⟩] }

/-- A full clean `Shutdown` of `New 1`. -/
def sdTrace : List Move :=
  [.newShutdown 0, .sdCloseWork 0, .sdCloseErr 0, .workerExit 0, .sdWait 0]

/-- The state `sdTrace` reaches: `Shutdown` has returned. -/
def sdState : PoolState :=
  { workClosed := true
    errClosed := true
    wgCount := 0
    workers := [.exited]
    callers := []
    sds := [(0, .returned)]
    submitted := [] }

/-- `New 1` after `close(p.work)` only. -/
def halfShutTrace : List Move := [.newShutdown 0, .sdCloseWork 0]

/-- The state `halfShutTrace` reaches. -/
def halfShut : PoolState :=
  { workClosed := true
    errClosed := false
    wgCount := 1
    workers := [.idle]
    callers := []
    sds := [(0, .atCloseErr)]
    submitted := [] }

/-- `halfShut` after its worker observes closure and exits. -/
def shutWorker : PoolState :=
  { halfShut with workers := [.exited], wgCount := 0 }

/-- `New 1` with one caller blocked at `p.work <- w`. -/
def oneSendingTrace : List Move := [.newRun 1 ⟨1, none⟩]

/-- The state `oneSendingTrace` reaches. -/
def oneSending : PoolState :=
  { workClosed := false
    errClosed := false
    wgCount := 1
    workers := [.idle]
    callers := [(1, .sendingWork ⟨1, none⟩)]
    sds := []
    submitted := [⟨1, none⟩] }

/-- `oneSending` after the handoff rendezvous. -/
def oneRunning : PoolState :=
  { oneSending with workers := [.executing ⟨1, none⟩]
                    callers := [(1, .awaitingRes ⟨1, none⟩)] }

/-- Misuse schedule on `New 1`: a complete `Shutdown`, then a late `Run`
call (blocked at its send) and a second `Shutdown` call (about to close). -/
def postShutdownTrace : List Move :=
  [.newShutdown 0, .sdCloseWork 0, .sdCloseErr 0, .workerExit 0, .sdWait 0,
   .newRun 1 ⟨1, none⟩, .newShutdown 5]

/-- The state `postShutdownTrace` reaches. -/
def postShutdown : PoolState :=
  { workClosed := true
    errClosed := true
    wgCount := 0
    workers := [.exited]
    callers := [(1, .sendingWork ⟨1, none⟩)]
    sds := [(5, .atCloseWork), (0, .returned)]
    submitted := [⟨1, none⟩] }

/-- A lone sequential `Run` call on `New 1`, run to completion. -/
def seqTrace : List Move :=
  [.newRun 0 ⟨0, some 3⟩, .handoff 0 0, .finishTask 0, .deliver 0 0]

/-- The state `seqTrace` reaches. -/
def seqState : PoolState :=
  { workClosed := false
    errClosed := false
    wgCount := 1
    workers := [.idle]
    callers := [(0, .returned ⟨0, some 3⟩ (some 3))]
    sds := []
    submitted := [⟨0, some 3⟩] }

/-- `New 0` after `Shutdown` reaches `wg.Wait()`. -/
def zeroTrace : List Move := [.newShutdown 0, .sdCloseWork 0, .sdCloseErr 0]

/-- The state `zeroTrace` reaches. -/
def zeroState : PoolState :=
  { workClosed := true
    errClosed := true
    wgCount := 0
    workers := []
    callers := []
    sds := [(0, .atWait)]
    submitted := [] }

/-! ## Association-list and counting helpers -/

theorem lookupA_cons {α : Type} (k k' : Nat) (v : α) (l : List (Nat × α)) :
    lookupA ((k, v) :: l) k' = if k = k' then some v else lookupA l k' := by
  by_cases h : k = k' <;> simp [lookupA, List.find?_cons, h]

theorem updA_cons {α : Type} (k₀ k : Nat) (v₀ v : α) (l : List (Nat × α)) :
    updA ((k₀, v₀) :: l) k v =
      if k₀ = k then (k, v) :: l else (k₀, v₀) :: updA l k v := by
  by_cases h : k₀ = k <;> simp [updA, h]

theorem lookupA_updA_self {α : Type} (l : List (Nat × α)) (k : Nat) (v : α) :
    lookupA (updA l k v) k = (lookupA l k).map (fun _ => v) := by
  induction l with
  | nil => rfl
  | cons p l ih =>
    obtain ⟨k₀, v₀⟩ := p
    rw [updA_cons]
    by_cases h : k₀ = k
    · subst h
      simp [lookupA_cons]
    · rw [if_neg h, lookupA_cons, lookupA_cons, if_neg h, if_neg h, ih]

theorem lookupA_updA_ne {α : Type} (l : List (Nat × α)) {k k' : Nat} (v : α)
    (h : k' ≠ k) : lookupA (updA l k v) k' = lookupA l k' := by
  induction l with
  | nil => rfl
  | cons p l ih =>
    obtain ⟨k₀, v₀⟩ := p
    rw [updA_cons]
    by_cases hk : k₀ = k
    · subst hk
      rw [if_pos rfl, lookupA_cons, lookupA_cons, if_neg (fun hh => h hh.symm),
        if_neg (fun hh => h hh.symm)]
    · rw [if_neg hk, lookupA_cons, lookupA_cons, ih]

theorem updA_eq_nil_iff {α : Type} (l : List (Nat × α)) (k : Nat) (v : α) :
    updA l k v = [] ↔ l = [] := by
  cases l with
  | nil => simp [updA]
  | cons p rest =>
    by_cases h : p.1 = k <;> simp [updA, h]

theorem countP_updA_add {α : Type} (p : Nat × α → Bool) {l : List (Nat × α)}
    {k : Nat} {st : α} (v : α) (h : lookupA l k = some st) :
    (updA l k v).countP p + (if p (k, st) then 1 else 0) =
      l.countP p + (if p (k, v) then 1 else 0) := by
  induction l with
  | nil => simp [lookupA] at h
  | cons q l ih =>
    obtain ⟨k₀, v₀⟩ := q
    rw [updA_cons, lookupA_cons] at *
    by_cases hk : k₀ = k
    · subst hk
      rw [if_pos rfl] at h ⊢
      cases Option.some.inj h
      simp only [List.countP_cons]
      omega
    · rw [if_neg hk] at h ⊢
      have := ih h
      simp only [List.countP_cons]
      omega

theorem countP_updA_add_one {α : Type} (p : Nat × α → Bool)
    {l : List (Nat × α)} {k : Nat} {st : α} (v : α)
    (h : lookupA l k = some st) (hpa : p (k, st) = false)
    (hpb : p (k, v) = true) :
    (updA l k v).countP p = l.countP p + 1 := by
  have h2 := countP_updA_add p v h
  rw [hpa, hpb] at h2
  simp at h2
  omega

theorem countP_updA_sub_one {α : Type} (p : Nat × α → Bool)
    {l : List (Nat × α)} {k : Nat} {st : α} (v : α)
    (h : lookupA l k = some st) (hpa : p (k, st) = true)
    (hpb : p (k, v) = false) :
    (updA l k v).countP p + 1 = l.countP p := by
  have h2 := countP_updA_add p v h
  rw [hpa, hpb] at h2
  simp at h2
  omega

theorem mem_of_lookupA {α : Type} {l : List (Nat × α)} {k : Nat} {v : α}
    (h : lookupA l k = some v) : (k, v) ∈ l := by
  simp only [lookupA, Option.map_eq_some'] at h
  obtain ⟨p, hp, hv⟩ := h
  have hm := List.mem_of_find?_eq_some hp
  have hk := List.find?_some hp
  obtain ⟨p₁, p₂⟩ := p
  simp only [beq_iff_eq] at hk
  subst hk; subst hv
  exact hm

theorem countP_set_add {α : Type} (p : α → Bool) {l : List α} {i : Nat} {a : α}
    (b : α) (h : l[i]? = some a) :
    (l.set i b).countP p + (if p a then 1 else 0) =
      l.countP p + (if p b then 1 else 0) := by
  induction l generalizing i with
  | nil => simp at h
  | cons x l ih =>
    cases i with
    | zero =>
      simp only [List.getElem?_cons_zero, Option.some.injEq] at h
      subst h
      simp only [List.set_cons_zero, List.countP_cons]
      omega
    | succ n =>
      simp only [List.getElem?_cons_succ] at h
      simp only [List.set_cons_succ, List.countP_cons]
      have := ih h
      omega

theorem countP_set_add_one {α : Type} (p : α → Bool) {l : List α} {i : Nat}
    {a : α} (b : α) (h : l[i]? = some a) (hpa : p a = false)
    (hpb : p b = true) : (l.set i b).countP p = l.countP p + 1 := by
  have h2 := countP_set_add p b h
  rw [hpa, hpb] at h2
  simp at h2
  omega

theorem countP_set_sub_one {α : Type} (p : α → Bool) {l : List α} {i : Nat}
    {a : α} (b : α) (h : l[i]? = some a) (hpa : p a = true)
    (hpb : p b = false) : (l.set i b).countP p + 1 = l.countP p := by
  have h2 := countP_set_add p b h
  rw [hpa, hpb] at h2
  simp at h2
  omega

theorem countP_set_keep {α : Type} (p : α → Bool) {l : List α} {i : Nat}
    {a : α} (b : α) (h : l[i]? = some a) (hpab : p a = p b) :
    (l.set i b).countP p = l.countP p := by
  have h2 := countP_set_add p b h
  rw [hpab] at h2
  omega

theorem countP_two_get {α : Type} (p : α → Bool) {l : List α} {i j : Nat}
    {a b : α} (hi : l[i]? = some a) (hj : l[j]? = some b) (hij : i ≠ j)
    (pa : p a = true) (pb : p b = true) : 2 ≤ l.countP p := by
  induction l generalizing i j with
  | nil => simp at hi
  | cons x l ih =>
    cases i with
    | zero =>
      simp only [List.getElem?_cons_zero, Option.some.injEq] at hi
      subst hi
      cases j with
      | zero => exact absurd rfl hij
      | succ m =>
        simp only [List.getElem?_cons_succ] at hj
        have h1 : 0 < l.countP p := List.countP_pos_iff.mpr
          ⟨b, List.getElem?_mem hj, pb⟩
        simp only [List.countP_cons, pa, if_pos]
        omega
    | succ n =>
      cases j with
      | zero =>
        simp only [List.getElem?_cons_zero, Option.some.injEq] at hj
        subst hj
        simp only [List.getElem?_cons_succ] at hi
        have h1 : 0 < l.countP p := List.countP_pos_iff.mpr
          ⟨a, List.getElem?_mem hi, pa⟩
        simp only [List.countP_cons, pb, if_pos]
        omega
      | succ m =>
        simp only [List.getElem?_cons_succ] at hi hj
        have := ih hi hj (fun hh => hij (by omega))
        simp only [List.countP_cons]
        omega

theorem countP_two_mem {α : Type} (p : α → Bool) {l : List α} {a b : α}
    (ha : a ∈ l) (hb : b ∈ l) (hne : a ≠ b)
    (pa : p a = true) (pb : p b = true) : 2 ≤ l.countP p := by
  induction l with
  | nil => simp at ha
  | cons x l ih =>
    rcases List.mem_cons.mp ha with hax | hal
    · subst hax
      have hbl : b ∈ l := by
        rcases List.mem_cons.mp hb with hbx | hbl
        · exact absurd hbx.symm hne
        · exact hbl
      have h1 : 0 < l.countP p := List.countP_pos_iff.mpr ⟨b, hbl, pb⟩
      simp only [List.countP_cons, pa, if_pos]
      omega
    · rcases List.mem_cons.mp hb with hbx | hbl
      · subst hbx
        have h1 : 0 < l.countP p := List.countP_pos_iff.mpr ⟨a, hal, pa⟩
        simp only [List.countP_cons, pb, if_pos]
        omega
      · have := ih hal hbl
        simp only [List.countP_cons]
        omega

theorem countP_lt_of_get {α : Type} (p : α → Bool) {l : List α} {i : Nat}
    {a : α} (h : l[i]? = some a) (hpa : p a = false) :
    l.countP p < l.length := by
  induction l generalizing i with
  | nil => simp at h
  | cons x l ih =>
    cases i with
    | zero =>
      simp only [List.getElem?_cons_zero, Option.some.injEq] at h
      subst h
      have := List.countP_le_length (p := p) (l := l)
      simp [List.countP_cons, hpa]
      omega
    | succ n =>
      simp only [List.getElem?_cons_succ] at h
      have := ih h
      simp only [List.countP_cons, List.length_cons]
      by_cases hx : p x <;> simp [hx] <;> omega

theorem inv_New (n : Nat) : PoolInv n (New n) := by
  refine ⟨?_, ?_, ?_, ?_, ?_, ?_, ?_, ?_, ?_, ?_⟩
  · simp [New]
  · have h0 : countExited (New n) = 0 := by
      simp only [countExited, New]
      refine List.countP_eq_zero.mpr ?_
      intro a ha
      rw [List.eq_of_mem_replicate ha]
      simp [isExitedW]
    rw [h0]
    simp [New]
  · intro sd h; simp [New, lookupA] at h
  · intro sd st h; simp [New, lookupA] at h
  · intro sd st h; simp [New, lookupA] at h
  · intro _; exact ⟨rfl, rfl⟩
  · intro c t r h; simp [New, lookupA] at h
  · intro i r h
    simp only [New, List.getElem?_replicate] at h
    split at h
    · exact absurd (Option.some.inj h) (by simp)
    · exact absurd h (by simp)
  · intro i t h
    simp only [New, List.getElem?_replicate] at h
    split at h
    · exact absurd (Option.some.inj h) (by simp)
    · exact absurd h (by simp)
  · intro c st h; simp [New, lookupA] at h

theorem inv_step {n : Nat} {s s' : PoolState} {m : Move}
    (inv : PoolInv n s) (h : step s m = some s') : PoolInv n s' := by
  obtain ⟨len, wg, sdRet, sdClosedW, sdClosedE, sdsFlags, retRes, wres, wexec,
    ctask⟩ := inv
  cases m with
  | newRun c t =>
    simp only [step] at h
    split at h
    · exact absurd h (by simp)
    · cases h
      refine ⟨len, wg, sdRet, sdClosedW, sdClosedE, sdsFlags, ?_, ?_, ?_, ?_⟩
      · intro c' t' r hl
        rw [lookupA_cons] at hl
        split at hl
        · exact absurd (Option.some.inj hl) (by simp)
        · rcases retRes c' t' r hl with hn | ⟨t'', ht'', hr⟩
          · exact Or.inl hn
          · exact Or.inr ⟨t'', List.mem_cons_of_mem _ ht'', hr⟩
      · intro i r hw
        obtain ⟨t'', ht'', hr⟩ := wres i r hw
        exact ⟨t'', List.mem_cons_of_mem _ ht'', hr⟩
      · intro i t' hw
        exact List.mem_cons_of_mem _ (wexec i t' hw)
      · intro c' st hl
        rw [lookupA_cons] at hl
        split at hl
        · cases Option.some.inj hl
          exact List.mem_cons_self _ _
        · exact List.mem_cons_of_mem _ (ctask c' st hl)
  | handoff c i =>
    simp only [step] at h
    split at h
    case _ t heq1 heq2 =>
      split at h
      · exact absurd h (by simp)
      · cases h
        case _ hwc =>
        refine ⟨?_, ?_, sdRet, sdClosedW, sdClosedE, sdsFlags, ?_, ?_, ?_, ?_⟩
        · simpa using len
        · have hc := countP_set_add isExitedW (WorkerSt.executing t) heq2
          simp [isExitedW] at hc
          simp only [countExited] at wg ⊢
          omega
        · intro c' t' r hl
          by_cases hc : c' = c
          · subst hc
            rw [lookupA_updA_self, heq1] at hl
            exact absurd (Option.some.inj hl) (by simp)
          · rw [lookupA_updA_ne _ _ hc] at hl
            exact retRes c' t' r hl
        · intro j r hw
          by_cases hj : i = j
          · subst hj
            rw [List.getElem?_set_self', heq2] at hw
            exact absurd (Option.some.inj hw) (by simp)
          · rw [List.getElem?_set_ne hj] at hw
            exact wres j r hw
        · intro j t' hw
          by_cases hj : i = j
          · subst hj
            rw [List.getElem?_set_self', heq2] at hw
            cases Option.some.inj hw
            exact ctask _ _ heq1
          · rw [List.getElem?_set_ne hj] at hw
            exact wexec j t' hw
        · intro c' st hl
          by_cases hc : c' = c
          · subst hc
            rw [lookupA_updA_self, heq1] at hl
            cases Option.some.inj hl
            simpa [taskOf] using ctask _ _ heq1
          · rw [lookupA_updA_ne _ _ hc] at hl
            exact ctask c' st hl
    case _ =>
      exact absurd h (by simp)
  | sendClosedWork c =>
    simp only [step] at h
    split at h
    case _ t heq1 =>
      split at h
      · cases h
        refine ⟨len, wg, sdRet, sdClosedW, sdClosedE, sdsFlags, ?_, wres,
          wexec, ?_⟩
        · intro c' t' r hl
          by_cases hc : c' = c
          · subst hc
            rw [lookupA_updA_self, heq1] at hl
            exact absurd (Option.some.inj hl) (by simp)
          · rw [lookupA_updA_ne _ _ hc] at hl
            exact retRes c' t' r hl
        · intro c' st hl
          by_cases hc : c' = c
          · subst hc
            rw [lookupA_updA_self, heq1] at hl
            cases Option.some.inj hl
            simpa [taskOf] using ctask _ _ heq1
          · rw [lookupA_updA_ne _ _ hc] at hl
            exact ctask c' st hl
      · exact absurd h (by simp)
    case _ =>
      exact absurd h (by simp)
  | finishTask i =>
    simp only [step] at h
    split at h
    case _ t heq =>
      cases h
      refine ⟨?_, ?_, sdRet, sdClosedW, sdClosedE, sdsFlags, retRes, ?_, ?_,
        ctask⟩
      · simpa using len
      · have hc := countP_set_add isExitedW (WorkerSt.sendingRes t.res) heq
        simp [isExitedW] at hc
        simp only [countExited] at wg ⊢
        omega
      · intro j r hw
        by_cases hj : i = j
        · subst hj
          rw [List.getElem?_set_self', heq] at hw
          cases Option.some.inj hw
          exact ⟨t, wexec i t heq, rfl⟩
        · rw [List.getElem?_set_ne hj] at hw
          exact wres j r hw
      · intro j t' hw
        by_cases hj : i = j
        · subst hj
          rw [List.getElem?_set_self', heq] at hw
          exact absurd (Option.some.inj hw) (by simp)
        · rw [List.getElem?_set_ne hj] at hw
          exact wexec j t' hw
    case _ =>
      exact absurd h (by simp)
  | deliver i c =>
    simp only [step] at h
    split at h
    case _ r t heq1 heq2 =>
      split at h
      · exact absurd h (by simp)
      · cases h
        refine ⟨?_, ?_, sdRet, sdClosedW, sdClosedE, sdsFlags, ?_, ?_, ?_, ?_⟩
        · simpa using len
        · have hc := countP_set_add isExitedW WorkerSt.idle heq1
          simp [isExitedW] at hc
          simp only [countExited] at wg ⊢
          omega
        · intro c' t' r' hl
          by_cases hc : c' = c
          · subst hc
            rw [lookupA_updA_self, heq2] at hl
            cases Option.some.inj hl
            exact Or.inr (wres i r heq1)
          · rw [lookupA_updA_ne _ _ hc] at hl
            exact retRes c' t' r' hl
        · intro j r' hw
          by_cases hj : i = j
          · subst hj
            rw [List.getElem?_set_self', heq1] at hw
            exact absurd (Option.some.inj hw) (by simp)
          · rw [List.getElem?_set_ne hj] at hw
            exact wres j r' hw
        · intro j t' hw
          by_cases hj : i = j
          · subst hj
            rw [List.getElem?_set_self', heq1] at hw
            exact absurd (Option.some.inj hw) (by simp)
          · rw [List.getElem?_set_ne hj] at hw
            exact wexec j t' hw
        · intro c' st hl
          by_cases hc : c' = c
          · subst hc
            rw [lookupA_updA_self, heq2] at hl
            cases Option.some.inj hl
            simpa [taskOf] using ctask _ _ heq2
          · rw [lookupA_updA_ne _ _ hc] at hl
            exact ctask c' st hl
    case _ =>
      exact absurd h (by simp)
  | sendClosedErr i =>
    simp only [step] at h
    split at h
    case _ r heq =>
      split at h
      · cases h
        refine ⟨?_, ?_, sdRet, sdClosedW, sdClosedE, sdsFlags, retRes, ?_, ?_,
          ctask⟩
        · simpa using len
        · have hc := countP_set_add isExitedW WorkerSt.panicked heq
          simp [isExitedW] at hc
          simp only [countExited] at wg ⊢
          omega
        · intro j r' hw
          by_cases hj : i = j
          · subst hj
            rw [List.getElem?_set_self', heq] at hw
            exact absurd (Option.some.inj hw) (by simp)
          · rw [List.getElem?_set_ne hj] at hw
            exact wres j r' hw
        · intro j t' hw
          by_cases hj : i = j
          · subst hj
            rw [List.getElem?_set_self', heq] at hw
            exact absurd (Option.some.inj hw) (by simp)
          · rw [List.getElem?_set_ne hj] at hw
            exact wexec j t' hw
      · exact absurd h (by simp)
    case _ =>
      exact absurd h (by simp)
  | recvClosedErr c =>
    simp only [step] at h
    split at h
    case _ t heq =>
      split at h
      · cases h
        refine ⟨len, wg, sdRet, sdClosedW, sdClosedE, sdsFlags, ?_, wres,
          wexec, ?_⟩
        · intro c' t' r hl
          by_cases hc : c' = c
          · subst hc
            rw [lookupA_updA_self, heq] at hl
            cases Option.some.inj hl
            exact Or.inl rfl
          · rw [lookupA_updA_ne _ _ hc] at hl
            exact retRes c' t' r hl
        · intro c' st hl
          by_cases hc : c' = c
          · subst hc
            rw [lookupA_updA_self, heq] at hl
            cases Option.some.inj hl
            simpa [taskOf] using ctask _ _ heq
          · rw [lookupA_updA_ne _ _ hc] at hl
            exact ctask c' st hl
      · exact absurd h (by simp)
    case _ =>
      exact absurd h (by simp)
  | workerExit i =>
    simp only [step] at h
    split at h
    case _ heq =>
      split at h
      · cases h
        have hlt : s.workers.countP isExitedW < s.workers.length :=
          countP_lt_of_get isExitedW heq rfl
        have hc := countP_set_add isExitedW WorkerSt.exited heq
        simp [isExitedW] at hc
        refine ⟨?_, ?_, ?_, sdClosedW, sdClosedE, sdsFlags, retRes, ?_, ?_,
          ctask⟩
        · simpa using len
        · simp only [countExited] at wg ⊢
          omega
        · intro sd hl
          have := sdRet sd hl
          show s.wgCount - 1 = 0
          omega
        · intro j r hw
          by_cases hj : i = j
          · subst hj
            rw [List.getElem?_set_self', heq] at hw
            exact absurd (Option.some.inj hw) (by simp)
          · rw [List.getElem?_set_ne hj] at hw
            exact wres j r hw
        · intro j t' hw
          by_cases hj : i = j
          · subst hj
            rw [List.getElem?_set_self', heq] at hw
            exact absurd (Option.some.inj hw) (by simp)
          · rw [List.getElem?_set_ne hj] at hw
            exact wexec j t' hw
      · exact absurd h (by simp)
    case _ =>
      exact absurd h (by simp)
  | newShutdown sd =>
    simp only [step] at h
    split at h
    · exact absurd h (by simp)
    · cases h
      refine ⟨len, wg, ?_, ?_, ?_, ?_, retRes, wres, wexec, ctask⟩
      · intro sd' hl
        rw [lookupA_cons] at hl
        split at hl
        · exact absurd (Option.some.inj hl) (by simp)
        · exact sdRet sd' hl
      · intro sd' st hl hst
        rw [lookupA_cons] at hl
        split at hl
        · cases Option.some.inj hl
          rcases hst with h1 | h1 | h1 <;> exact absurd h1 (by simp)
        · exact sdClosedW sd' st hl hst
      · intro sd' st hl hst
        rw [lookupA_cons] at hl
        split at hl
        · cases Option.some.inj hl
          rcases hst with h1 | h1 <;> exact absurd h1 (by simp)
        · exact sdClosedE sd' st hl hst
      · intro hnil
        exact absurd hnil (by simp)
  | sdCloseWork sd =>
    simp only [step] at h
    split at h
    case _ heq =>
      split at h
      · cases h
        refine ⟨len, wg, ?_, ?_, ?_, ?_, retRes, wres, wexec, ctask⟩
        · intro sd' hl
          by_cases hs : sd' = sd
          · subst hs
            rw [lookupA_updA_self, heq] at hl
            exact absurd (Option.some.inj hl) (by simp)
          · rw [lookupA_updA_ne _ _ hs] at hl
            exact sdRet sd' hl
        · intro sd' st hl hst
          by_cases hs : sd' = sd
          · subst hs
            rw [lookupA_updA_self, heq] at hl
            cases Option.some.inj hl
            rcases hst with h1 | h1 | h1 <;> exact absurd h1 (by simp)
          · rw [lookupA_updA_ne _ _ hs] at hl
            exact sdClosedW sd' st hl hst
        · intro sd' st hl hst
          by_cases hs : sd' = sd
          · subst hs
            rw [lookupA_updA_self, heq] at hl
            cases Option.some.inj hl
            rcases hst with h1 | h1 <;> exact absurd h1 (by simp)
          · rw [lookupA_updA_ne _ _ hs] at hl
            exact sdClosedE sd' st hl hst
        · intro hnil
          rw [updA_eq_nil_iff] at hnil
          rw [hnil] at heq
          exact absurd heq (by simp [lookupA])
      · cases h
        refine ⟨len, wg, ?_, ?_, ?_, ?_, retRes, wres, wexec, ctask⟩
        · intro sd' hl
          by_cases hs : sd' = sd
          · subst hs
            rw [lookupA_updA_self, heq] at hl
            exact absurd (Option.some.inj hl) (by simp)
          · rw [lookupA_updA_ne _ _ hs] at hl
            exact sdRet sd' hl
        · intro sd' st hl hst
          rfl
        · intro sd' st hl hst
          by_cases hs : sd' = sd
          · subst hs
            rw [lookupA_updA_self, heq] at hl
            cases Option.some.inj hl
            rcases hst with h1 | h1 <;> exact absurd h1 (by simp)
          · rw [lookupA_updA_ne _ _ hs] at hl
            exact sdClosedE sd' st hl hst
        · intro hnil
          rw [updA_eq_nil_iff] at hnil
          rw [hnil] at heq
          exact absurd heq (by simp [lookupA])
    case _ =>
      exact absurd h (by simp)
  | sdCloseErr sd =>
    simp only [step] at h
    split at h
    case _ heq =>
      split at h
      · cases h
        refine ⟨len, wg, ?_, ?_, ?_, ?_, retRes, wres, wexec, ctask⟩
        · intro sd' hl
          by_cases hs : sd' = sd
          · subst hs
            rw [lookupA_updA_self, heq] at hl
            exact absurd (Option.some.inj hl) (by simp)
          · rw [lookupA_updA_ne _ _ hs] at hl
            exact sdRet sd' hl
        · intro sd' st hl hst
          by_cases hs : sd' = sd
          · subst hs
            rw [lookupA_updA_self, heq] at hl
            cases Option.some.inj hl
            rcases hst with h1 | h1 | h1 <;> exact absurd h1 (by simp)
          · rw [lookupA_updA_ne _ _ hs] at hl
            exact sdClosedW sd' st hl hst
        · intro sd' st hl hst
          by_cases hs : sd' = sd
          · subst hs
            rw [lookupA_updA_self, heq] at hl
            cases Option.some.inj hl
            rcases hst with h1 | h1 <;> exact absurd h1 (by simp)
          · rw [lookupA_updA_ne _ _ hs] at hl
            exact sdClosedE sd' st hl hst
        · intro hnil
          rw [updA_eq_nil_iff] at hnil
          rw [hnil] at heq
          exact absurd heq (by simp [lookupA])
      · cases h
        refine ⟨len, wg, ?_, ?_, ?_, ?_, retRes, wres, wexec, ctask⟩
        · intro sd' hl
          by_cases hs : sd' = sd
          · subst hs
            rw [lookupA_updA_self, heq] at hl
            exact absurd (Option.some.inj hl) (by simp)
          · rw [lookupA_updA_ne _ _ hs] at hl
            exact sdRet sd' hl
        · intro sd' st hl hst
          by_cases hs : sd' = sd
          · subst hs
            exact sdClosedW _ _ heq (Or.inl rfl)
          · rw [lookupA_updA_ne _ _ hs] at hl
            exact sdClosedW sd' st hl hst
        · intro sd' st hl hst
          rfl
        · intro hnil
          rw [updA_eq_nil_iff] at hnil
          rw [hnil] at heq
          exact absurd heq (by simp [lookupA])
    case _ =>
      exact absurd h (by simp)
  | sdWait sd =>
    simp only [step] at h
    split at h
    case _ heq =>
      split at h
      case _ hwg =>
        cases h
        refine ⟨len, wg, ?_, ?_, ?_, ?_, retRes, wres, wexec, ctask⟩
        · intro sd' hl
          simp only [beq_iff_eq] at hwg
          exact hwg
        · intro sd' st hl hst
          by_cases hs : sd' = sd
          · subst hs
            exact sdClosedW _ _ heq (Or.inr (Or.inl rfl))
          · rw [lookupA_updA_ne _ _ hs] at hl
            exact sdClosedW sd' st hl hst
        · intro sd' st hl hst
          by_cases hs : sd' = sd
          · subst hs
            exact sdClosedE _ _ heq (Or.inl rfl)
          · rw [lookupA_updA_ne _ _ hs] at hl
            exact sdClosedE sd' st hl hst
        · intro hnil
          rw [updA_eq_nil_iff] at hnil
          rw [hnil] at heq
          exact absurd heq (by simp [lookupA])
      · exact absurd h (by simp)
    case _ =>
      exact absurd h (by simp)

/-- The invariant holds in every state reachable from a state satisfying it. -/
theorem inv_runTrace {n : Nat} {s s' : PoolState} {ms : List Move}
    (inv : PoolInv n s) (h : runTrace s ms = some s') : PoolInv n s' := by
  induction ms generalizing s with
  | nil => cases h; exact inv
  | cons m ms ih =>
    simp only [runTrace] at h
    split at h
    case _ s₁ hstep => exact ih (inv_step inv hstep) h
    case _ => exact absurd h (by simp)

/-- The invariant holds in every state reachable from `New n`. -/
theorem inv_reach {n : Nat} {s : PoolState} {ms : List Move}
    (h : runTrace (New n) ms = some s) : PoolInv n s :=
  inv_runTrace (inv_New n) h

/-! ## Characterizations of single transitions -/

theorem step_handoff {s s' : PoolState} {c i : Nat}
    (h : step s (Move.handoff c i) = some s') :
    ∃ t, lookupA s.callers c = some (CallerSt.sendingWork t) ∧
      s.workers[i]? = some WorkerSt.idle ∧
      s.workClosed = false ∧
      s' = { s with callers := updA s.callers c (CallerSt.awaitingRes t)
                    workers := s.workers.set i (WorkerSt.executing t) } := by
  simp only [step] at h
  split at h
  case _ t heq1 heq2 =>
    split at h
    case _ => exact absurd h (by simp)
    case _ hcl =>
      cases h
      exact ⟨t, heq1, heq2, Bool.not_eq_true _ ▸ eq_false_of_ne_true hcl, rfl⟩
  case _ =>
    exact absurd h (by simp)

theorem step_workerExit {s s' : PoolState} {i : Nat}
    (h : step s (Move.workerExit i) = some s') :
    s.workClosed = true ∧ s.workers[i]? = some WorkerSt.idle ∧
    s' = { s with workers := s.workers.set i WorkerSt.exited
                  wgCount := s.wgCount - 1 } := by
  simp only [step] at h
  split at h
  case _ heq =>
    split at h
    case _ hcl =>
      cases h
      exact ⟨hcl, heq, rfl⟩
    case _ => exact absurd h (by simp)
  case _ =>
    exact absurd h (by simp)

theorem step_finishTask {s s' : PoolState} {i : Nat}
    (h : step s (Move.finishTask i) = some s') :
    ∃ t, s.workers[i]? = some (WorkerSt.executing t) ∧
      s' = { s with workers := s.workers.set i (WorkerSt.sendingRes t.res) } := by
  simp only [step] at h
  split at h
  case _ t heq =>
    cases h
    exact ⟨t, heq, rfl⟩
  case _ =>
    exact absurd h (by simp)

theorem isExitedW_eq {w : WorkerSt} (h : isExitedW w = true) :
    w = WorkerSt.exited := by
  cases w <;> simp [isExitedW] at h ⊢

theorem runTrace_append (s : PoolState) (l1 l2 : List Move) :
    runTrace s (l1 ++ l2) = (runTrace s l1).bind (fun s₁ => runTrace s₁ l2) := by
  induction l1 generalizing s with
  | nil => rfl
  | cons m l1 ih =>
    simp only [List.cons_append, runTrace]
    cases step s m with
    | none => rfl
    | some s₁ => exact ih s₁

/-- A panicked worker never recovers: none of its transitions are enabled,
and since `wg.Done()` runs only in `workerExit`, the WaitGroup counter can
never change again in a pool whose only worker is panicked. -/
theorem panicked_stuck {s s' : PoolState} {m : Move}
    (hW : s.workers = [WorkerSt.panicked]) (hstep : step s m = some s') :
    s'.workers = [WorkerSt.panicked] ∧ s'.wgCount = s.wgCount := by
  have hone : ∀ (i : Nat) (w : WorkerSt), s.workers[i]? = some w →
      w = WorkerSt.panicked := by
    intro i w hi
    rw [hW] at hi
    cases i with
    | zero => exact (Option.some.inj hi).symm
    | succ k => simp at hi
  cases m with
  | newRun c t =>
    simp only [step] at hstep
    split at hstep
    · exact absurd hstep (by simp)
    · cases hstep; exact ⟨hW, rfl⟩
  | handoff c i =>
    simp only [step] at hstep
    split at hstep
    case _ t heq1 heq2 => exact absurd (hone i _ heq2) (by simp)
    case _ => exact absurd hstep (by simp)
  | sendClosedWork c =>
    simp only [step] at hstep
    split at hstep
    case _ t heq =>
      split at hstep
      · cases hstep; exact ⟨hW, rfl⟩
      · exact absurd hstep (by simp)
    case _ => exact absurd hstep (by simp)
  | finishTask i =>
    simp only [step] at hstep
    split at hstep
    case _ t heq => exact absurd (hone i _ heq) (by simp)
    case _ => exact absurd hstep (by simp)
  | deliver i c =>
    simp only [step] at hstep
    split at hstep
    case _ r t heq1 heq2 => exact absurd (hone i _ heq1) (by simp)
    case _ => exact absurd hstep (by simp)
  | sendClosedErr i =>
    simp only [step] at hstep
    split at hstep
    case _ r heq => exact absurd (hone i _ heq) (by simp)
    case _ => exact absurd hstep (by simp)
  | recvClosedErr c =>
    simp only [step] at hstep
    split at hstep
    case _ t heq =>
      split at hstep
      · cases hstep; exact ⟨hW, rfl⟩
      · exact absurd hstep (by simp)
    case _ => exact absurd hstep (by simp)
  | workerExit i =>
    simp only [step] at hstep
    split at hstep
    case _ heq => exact absurd (hone i _ heq) (by simp)
    case _ => exact absurd hstep (by simp)
  | newShutdown sd =>
    simp only [step] at hstep
    split at hstep
    · exact absurd hstep (by simp)
    · cases hstep; exact ⟨hW, rfl⟩
  | sdCloseWork sd =>
    simp only [step] at hstep
    split at hstep
    case _ heq =>
      split at hstep <;> (cases hstep; exact ⟨hW, rfl⟩)
    case _ => exact absurd hstep (by simp)
  | sdCloseErr sd =>
    simp only [step] at hstep
    split at hstep
    case _ heq =>
      split at hstep <;> (cases hstep; exact ⟨hW, rfl⟩)
    case _ => exact absurd hstep (by simp)
  | sdWait sd =>
    simp only [step] at hstep
    split at hstep
    case _ heq =>
      split at hstep
      · cases hstep; exact ⟨hW, rfl⟩
      · exact absurd hstep (by simp)
    case _ => exact absurd hstep (by simp)

/-- Iterated version of `panicked_stuck` over an arbitrary schedule. -/
theorem stuck_run {s s' : PoolState} {ms : List Move}
    (hW : s.workers = [WorkerSt.panicked]) (h : runTrace s ms = some s') :
    s'.workers = [WorkerSt.panicked] ∧ s'.wgCount = s.wgCount := by
  induction ms generalizing s with
  | nil => cases h; exact ⟨hW, rfl⟩
  | cons m ms ih =>
    simp only [runTrace] at h
    split at h
    case _ s₁ hstep =>
      obtain ⟨hW₁, hwg₁⟩ := panicked_stuck hW hstep
      obtain ⟨hW₂, hwg₂⟩ := ih hW₁ h
      exact ⟨hW₂, hwg₂.trans hwg₁⟩
    case _ => exact absurd h (by simp)

/-! ## The single-caller (sequential) regime -/

theorem seqOKb_self {s : PoolState} {ms : List Move} (h : seqOKb s ms = true) :
    inflightCount s ≤ 1 ∧ s.sds = [] := by
  have h0 := List.all_eq_true.mp h 0 (by simp)
  simp only [List.take_zero, runTrace] at h0
  simpa using h0

theorem seqOKb_tail {s s₁ : PoolState} {m : Move} {ms : List Move}
    (h : seqOKb s (m :: ms) = true) (hstep : step s m = some s₁) :
    seqOKb s₁ ms = true := by
  refine List.all_eq_true.mpr ?_
  intro k hk
  rw [List.mem_range] at hk
  have hk1 : k + 1 ∈ List.range ((m :: ms).length + 1) := by
    rw [List.mem_range, List.length_cons]
    omega
  have h1 := List.all_eq_true.mp h (k + 1) hk1
  rw [List.take_succ_cons] at h1
  rw [show runTrace s (m :: List.take k ms) = runTrace s₁ (List.take k ms) by
    simp [runTrace, hstep]] at h1
  exact h1

theorem two_inflight {s : PoolState} {c c' : Nat} {st st' : CallerSt}
    (h : lookupA s.callers c = some st) (h' : lookupA s.callers c' = some st')
    (hne : c ≠ c') (hst : isInflightC st = true)
    (hst' : isInflightC st' = true) : 2 ≤ inflightCount s := by
  have hpair : (c, st) ≠ (c', st') := fun hh => hne (congrArg Prod.fst hh)
  exact countP_two_mem _ (mem_of_lookupA h) (mem_of_lookupA h') hpair hst hst'

theorem awaiting_le_inflight (s : PoolState) :
    awaitingCount s ≤ inflightCount s := by
  refine List.countP_mono_left ?_
  intro x _ hx
  cases h2 : x.2 <;> rw [h2] at hx <;>
    simp [isAwaitingC, isInflightC] at hx ⊢

theorem seqInv_New (n : Nat) : SeqInv (New n) := by
  refine ⟨?_, ?_, ?_, ?_⟩
  · intro i t hw
    simp only [New, List.getElem?_replicate] at hw
    split at hw
    · exact absurd (Option.some.inj hw) (by simp)
    · exact absurd hw (by simp)
  · intro i r hw
    simp only [New, List.getElem?_replicate] at hw
    split at hw
    · exact absurd (Option.some.inj hw) (by simp)
    · exact absurd hw (by simp)
  · intro c t r hl
    simp [New, lookupA] at hl
  · show (List.replicate n WorkerSt.idle).countP isBusyW ≤
      ([] : List (Nat × CallerSt)).countP (fun p => isAwaitingC p.2)
    have hz : (List.replicate n WorkerSt.idle).countP isBusyW = 0 := by
      refine List.countP_eq_zero.mpr ?_
      intro a ha
      rw [List.eq_of_mem_replicate ha]
      simp [isBusyW]
    rw [hz]
    simp

theorem seqInv_step {n : Nat} {s s' : PoolState} {m : Move}
    (pinv : PoolInv n s) (sinv : SeqInv s)
    (hin : inflightCount s ≤ 1) (hsds : s.sds = []) (hsds' : s'.sds = [])
    (hstep : step s m = some s') : SeqInv s' := by
  obtain ⟨execPaired, resPaired, retOwn, busyAw⟩ := sinv
  cases m with
  | newRun c t =>
    simp only [step] at hstep
    split at hstep
    · exact absurd hstep (by simp)
    case _ hfresh =>
      cases hstep
      have hnone : lookupA s.callers c = none := by
        cases hl : lookupA s.callers c with
        | none => rfl
        | some v => rw [hl] at hfresh; simp at hfresh
      refine ⟨?_, ?_, ?_, ?_⟩
      · intro i t' hw
        obtain ⟨c'', hc''⟩ := execPaired i t' hw
        refine ⟨c'', ?_⟩
        rw [lookupA_cons]
        by_cases hcc : c = c''
        · rw [← hcc, hnone] at hc''
          exact absurd hc'' (by simp)
        · rw [if_neg hcc]
          exact hc''
      · intro i r' hw
        obtain ⟨c'', t'', hc'', hr''⟩ := resPaired i r' hw
        refine ⟨c'', t'', ?_, hr''⟩
        rw [lookupA_cons]
        by_cases hcc : c = c''
        · rw [← hcc, hnone] at hc''
          exact absurd hc'' (by simp)
        · rw [if_neg hcc]
          exact hc''
      · intro c' t' r hl
        rw [lookupA_cons] at hl
        split at hl
        · exact absurd (Option.some.inj hl) (by simp)
        · exact retOwn c' t' r hl
      · show s.workers.countP isBusyW ≤
          ((c, CallerSt.sendingWork t) :: s.callers).countP
            (fun p => isAwaitingC p.2)
        rw [List.countP_cons]
        have hba : s.workers.countP isBusyW ≤
          s.callers.countP (fun p => isAwaitingC p.2) := busyAw
        omega
  | handoff c i =>
    simp only [step] at hstep
    split at hstep
    case _ t heq1 heq2 =>
      split at hstep
      · exact absurd hstep (by simp)
      · cases hstep
        have hnoaw : ∀ (c'' : Nat) (st'' : CallerSt),
            lookupA s.callers c'' = some st'' → isInflightC st'' = true →
            c'' = c := by
          intro c'' st'' hc'' hst''
          by_cases hc : c'' = c
          · exact hc
          · have h2 := two_inflight hc'' heq1 hc hst'' rfl
            omega
        refine ⟨?_, ?_, ?_, ?_⟩
        · intro j t' hw
          by_cases hj : i = j
          · subst hj
            rw [List.getElem?_set_self', heq2] at hw
            have hw' : WorkerSt.executing t = WorkerSt.executing t' :=
              Option.some.inj hw
            injection hw' with ht
            subst ht
            refine ⟨c, ?_⟩
            rw [lookupA_updA_self, heq1]
            rfl
          · rw [List.getElem?_set_ne hj] at hw
            obtain ⟨c'', hc''⟩ := execPaired j t' hw
            have hcc := hnoaw c'' _ hc'' rfl
            rw [hcc, heq1] at hc''
            exact absurd (Option.some.inj hc'') (by simp)
        · intro j r' hw
          by_cases hj : i = j
          · subst hj
            rw [List.getElem?_set_self', heq2] at hw
            exact absurd (Option.some.inj hw) (by simp)
          · rw [List.getElem?_set_ne hj] at hw
            obtain ⟨c'', t'', hc'', hr''⟩ := resPaired j r' hw
            have hcc := hnoaw c'' _ hc'' rfl
            rw [hcc, heq1] at hc''
            exact absurd (Option.some.inj hc'') (by simp)
        · intro c' t' r' hl
          by_cases hc : c' = c
          · subst hc
            rw [lookupA_updA_self, heq1] at hl
            have hl' : CallerSt.awaitingRes t = CallerSt.returned t' r' :=
              Option.some.inj hl
            exact absurd hl' (by simp)
          · rw [lookupA_updA_ne _ _ hc] at hl
            exact retOwn c' t' r' hl
        · have hb := countP_set_add_one isBusyW (WorkerSt.executing t) heq2
            rfl rfl
          have ha := countP_updA_add_one (fun p => isAwaitingC p.2)
            (CallerSt.awaitingRes t) heq1 rfl rfl
          show (s.workers.set i (WorkerSt.executing t)).countP isBusyW ≤
            (updA s.callers c (CallerSt.awaitingRes t)).countP
              (fun p => isAwaitingC p.2)
          have hba : s.workers.countP isBusyW ≤
            s.callers.countP (fun p => isAwaitingC p.2) := busyAw
          omega
    case _ =>
      exact absurd hstep (by simp)
  | sendClosedWork c =>
    simp only [step] at hstep
    split at hstep
    case _ t heq =>
      split at hstep
      case _ hcl =>
        rw [(pinv.sdsFlags hsds).1] at hcl
        exact absurd hcl (by simp)
      case _ => exact absurd hstep (by simp)
    case _ => exact absurd hstep (by simp)
  | finishTask i =>
    simp only [step] at hstep
    split at hstep
    case _ t heq =>
      cases hstep
      refine ⟨?_, ?_, retOwn, ?_⟩
      · intro j t' hw
        by_cases hj : i = j
        · subst hj
          rw [List.getElem?_set_self', heq] at hw
          exact absurd (Option.some.inj hw) (by simp)
        · rw [List.getElem?_set_ne hj] at hw
          exact execPaired j t' hw
      · intro j r' hw
        by_cases hj : i = j
        · subst hj
          rw [List.getElem?_set_self', heq] at hw
          have hw' : WorkerSt.sendingRes t.res = WorkerSt.sendingRes r' :=
            Option.some.inj hw
          injection hw' with hr
          obtain ⟨c₀, hc₀⟩ := execPaired i t heq
          exact ⟨c₀, t, hc₀, hr.symm⟩
        · rw [List.getElem?_set_ne hj] at hw
          exact resPaired j r' hw
      · have hb := countP_set_keep isBusyW (WorkerSt.sendingRes t.res) heq rfl
        show (s.workers.set i (WorkerSt.sendingRes t.res)).countP isBusyW ≤
          s.callers.countP (fun p => isAwaitingC p.2)
        have hba : s.workers.countP isBusyW ≤
          s.callers.countP (fun p => isAwaitingC p.2) := busyAw
        omega
    case _ =>
      exact absurd hstep (by simp)
  | deliver i c =>
    simp only [step] at hstep
    split at hstep
    case _ r t heq1 heq2 =>
      split at hstep
      · exact absurd hstep (by simp)
      · cases hstep
        have hnb : ∀ (j : Nat) (w : WorkerSt), j ≠ i →
            s.workers[j]? = some w → isBusyW w = false := by
          intro j w hj hw
          cases hb : isBusyW w with
          | false => rfl
          | true =>
            have h2 : 2 ≤ busyCount s :=
              countP_two_get isBusyW hw heq1 hj hb rfl
            have h3 := busyAw
            have h4 := awaiting_le_inflight s
            omega
        have hcc : ∀ (c'' : Nat) (t'' : Task),
            lookupA s.callers c'' = some (CallerSt.awaitingRes t'') →
            c'' = c ∧ t'' = t := by
          intro c'' t'' hc''
          by_cases hc : c'' = c
          · subst hc
            rw [heq2] at hc''
            have := Option.some.inj hc''
            injection this with ht
            exact ⟨rfl, ht.symm⟩
          · have h2 := two_inflight hc'' heq2 hc rfl rfl
            omega
        refine ⟨?_, ?_, ?_, ?_⟩
        · intro j t' hw
          by_cases hj : i = j
          · subst hj
            rw [List.getElem?_set_self', heq1] at hw
            exact absurd (Option.some.inj hw) (by simp)
          · rw [List.getElem?_set_ne hj] at hw
            have := hnb j _ (fun hh => hj hh.symm) hw
            simp [isBusyW] at this
        · intro j r' hw
          by_cases hj : i = j
          · subst hj
            rw [List.getElem?_set_self', heq1] at hw
            exact absurd (Option.some.inj hw) (by simp)
          · rw [List.getElem?_set_ne hj] at hw
            have := hnb j _ (fun hh => hj hh.symm) hw
            simp [isBusyW] at this
        · intro c' t' r' hl
          by_cases hc : c' = c
          · subst hc
            rw [lookupA_updA_self, heq2] at hl
            have hl' : CallerSt.returned t r = CallerSt.returned t' r' :=
              Option.some.inj hl
            injection hl' with ht hr
            obtain ⟨c₀, t₀, hc₀, hr₀⟩ := resPaired i r heq1
            obtain ⟨hc₀c, ht₀⟩ := hcc c₀ t₀ hc₀
            rw [← hr, ← ht, hr₀, ht₀]
          · rw [lookupA_updA_ne _ _ hc] at hl
            exact retOwn c' t' r' hl
        · have hb := countP_set_sub_one isBusyW WorkerSt.idle heq1 rfl rfl
          have ha := countP_updA_sub_one (fun p => isAwaitingC p.2)
            (CallerSt.returned t r) heq2 rfl rfl
          show (s.workers.set i WorkerSt.idle).countP isBusyW ≤
            (updA s.callers c (CallerSt.returned t r)).countP
              (fun p => isAwaitingC p.2)
          have hba : s.workers.countP isBusyW ≤
            s.callers.countP (fun p => isAwaitingC p.2) := busyAw
          omega
    case _ =>
      exact absurd hstep (by simp)
  | sendClosedErr i =>
    simp only [step] at hstep
    split at hstep
    case _ r heq =>
      split at hstep
      case _ hcl =>
        rw [(pinv.sdsFlags hsds).2] at hcl
        exact absurd hcl (by simp)
      case _ => exact absurd hstep (by simp)
    case _ => exact absurd hstep (by simp)
  | recvClosedErr c =>
    simp only [step] at hstep
    split at hstep
    case _ t heq =>
      split at hstep
      case _ hcl =>
        rw [(pinv.sdsFlags hsds).2] at hcl
        exact absurd hcl (by simp)
      case _ => exact absurd hstep (by simp)
    case _ => exact absurd hstep (by simp)
  | workerExit i =>
    simp only [step] at hstep
    split at hstep
    case _ heq =>
      split at hstep
      · cases hstep
        refine ⟨?_, ?_, retOwn, ?_⟩
        · intro j t' hw
          by_cases hj : i = j
          · subst hj
            rw [List.getElem?_set_self', heq] at hw
            exact absurd (Option.some.inj hw) (by simp)
          · rw [List.getElem?_set_ne hj] at hw
            exact execPaired j t' hw
        · intro j r' hw
          by_cases hj : i = j
          · subst hj
            rw [List.getElem?_set_self', heq] at hw
            exact absurd (Option.some.inj hw) (by simp)
          · rw [List.getElem?_set_ne hj] at hw
            exact resPaired j r' hw
        · have hb := countP_set_keep isBusyW WorkerSt.exited heq rfl
          show (s.workers.set i WorkerSt.exited).countP isBusyW ≤
            s.callers.countP (fun p => isAwaitingC p.2)
          have hba : s.workers.countP isBusyW ≤
            s.callers.countP (fun p => isAwaitingC p.2) := busyAw
          omega
      · exact absurd hstep (by simp)
    case _ => exact absurd hstep (by simp)
  | newShutdown sd =>
    simp only [step] at hstep
    split at hstep
    · exact absurd hstep (by simp)
    · cases hstep
      simp at hsds'
  | sdCloseWork sd =>
    simp only [step] at hstep
    split at hstep
    case _ heq =>
      rw [hsds] at heq
      exact absurd heq (by simp [lookupA])
    case _ => exact absurd hstep (by simp)
  | sdCloseErr sd =>
    simp only [step] at hstep
    split at hstep
    case _ heq =>
      rw [hsds] at heq
      exact absurd heq (by simp [lookupA])
    case _ => exact absurd hstep (by simp)
  | sdWait sd =>
    simp only [step] at hstep
    split at hstep
    case _ heq =>
      rw [hsds] at heq
      exact absurd heq (by simp [lookupA])
    case _ => exact absurd hstep (by simp)

theorem seqInv_run {n : Nat} {s s' : PoolState} {ms : List Move}
    (pinv : PoolInv n s) (sinv : SeqInv s) (hseq : seqOKb s ms = true)
    (h : runTrace s ms = some s') : SeqInv s' := by
  induction ms generalizing s with
  | nil => cases h; exact sinv
  | cons m ms ih =>
    simp only [runTrace] at h
    split at h
    case _ s₁ hstep =>
      have h0 := seqOKb_self hseq
      have hseq₁ := seqOKb_tail hseq hstep
      have h1 := seqOKb_self hseq₁
      exact ih (inv_step pinv hstep)
        (seqInv_step pinv sinv h0.1 h0.2 h1.2 hstep) hseq₁ h
    case _ => exact absurd h (by simp)

/-! ## The claims -/

/-- **C1** (refuted by the code, see the spec's own §4.1/§9 note): the claim
says every `Run` call returns only after its own task has executed, with its
own task's outcome.  In the concrete schedule `mixTrace`, caller 1's `Run`
has returned the outcome `some 7` — produced by caller 2's task `⟨2, some 7⟩`
— while caller 1's own task `⟨1, none⟩` (whose `Task()` result is `none`, not
`some 7`) is still executing on worker 0.  The shared `errChan` delivers any
worker's result to any waiting caller. -/
theorem run_outcome_crosstalk :
    runTrace (New 2) mixTrace = some mixState ∧
    lookupA mixState.callers 1 = some (CallerSt.returned ⟨1, none⟩ (some 7)) ∧
    mixState.workers[0]? = some (WorkerSt.executing ⟨1, none⟩) ∧
    (⟨1, none⟩ : Task).res ≠ some 7 := by
  refine ⟨by decide, by decide, by decide, by decide⟩

/-- **C2**: for every pool `New n` with `n ≥ 1` and every schedule, at most
`n` tasks are executing (inside `Task()`) in every reachable state: tasks
execute only on the `n` worker goroutines, one at a time. -/
theorem at_most_n_executing (n : Nat) (ms : List Move) (s : PoolState)
    (hn : 1 ≤ n) (h : runTrace (New n) ms = some s) :
    countExecuting s ≤ n := by
  have len := (inv_reach h).len
  calc countExecuting s ≤ s.workers.length := List.countP_le_length _
    _ = n := len

theorem at_most_n_executing_witness :
    1 ≤ 2 ∧ countExecuting mixState ≤ 2 :=
  ⟨by decide, at_most_n_executing 2 mixTrace mixState (by decide) (by decide)⟩

/-- **C3** (refuted by the code): the claim says no execution can panic
inside a worker goroutine and leave the completion barrier unsatisfied.  But
`Shutdown` also runs `close(p.errChan)`; a worker that finishes an in-flight
task afterwards panics on `p.errChan <- w.Task()`.  After the concrete
schedule `panicTrace` the only worker of `New 1` is panicked, `wg.Done()` was
never called, and in every further reachable state the WaitGroup counter is
still 1 — the barrier is permanently unsatisfied. -/
theorem worker_panic_on_closed_errChan (ms : List Move) (s' : PoolState)
    (h : runTrace (New 1) (panicTrace ++ ms) = some s') :
    s'.workers = [WorkerSt.panicked] ∧ s'.wgCount = 1 := by
  rw [runTrace_append] at h
  have h1 : runTrace (New 1) panicTrace = some panickedState := by decide
  rw [h1, Option.some_bind] at h
  have h2 := stuck_run rfl h
  exact ⟨h2.1, h2.2⟩

theorem worker_panic_on_closed_errChan_witness :
    panickedState.workers = [WorkerSt.panicked] ∧ panickedState.wgCount = 1 :=
  worker_panic_on_closed_errChan [] panickedState (by decide)

/-- **C4**: whenever a `Shutdown` call has returned, the `work` channel is
closed, `wg.Wait()` has seen a zero counter, and every one of the `n` workers
has exited its loop — zero workers remain active. -/
theorem shutdown_returned_workers_exited (n : Nat) (ms : List Move)
    (s : PoolState) (sd : Nat) (h : runTrace (New n) ms = some s)
    (hsd : lookupA s.sds sd = some SdSt.returned) :
    s.workClosed = true ∧ s.errClosed = true ∧ s.wgCount = 0 ∧
    ∀ w ∈ s.workers, w = WorkerSt.exited := by
  have inv := inv_reach h
  have hwg := inv.sdRet sd hsd
  refine ⟨inv.sdClosedW sd _ hsd (Or.inr (Or.inr rfl)),
    inv.sdClosedE sd _ hsd (Or.inr rfl), hwg, ?_⟩
  have hcnt : s.workers.countP isExitedW = s.workers.length := by
    have h1 := inv.wg
    have h2 := inv.len
    simp only [countExited] at h1
    omega
  intro w hw
  exact isExitedW_eq (List.countP_eq_length.mp hcnt w hw)

theorem shutdown_returned_workers_exited_witness :
    runTrace (New 1) sdTrace = some sdState ∧
    sdState.wgCount = 0 ∧ sdState.workClosed = true :=
  ⟨by decide,
   (shutdown_returned_workers_exited 1 sdTrace sdState 0 (by decide)
     (by decide)).2.2.1,
   (shutdown_returned_workers_exited 1 sdTrace sdState 0 (by decide)
     (by decide)).1⟩

/-- **C5**: `New size` starts exactly `size` workers, all blocked on the
handoff channel, with the barrier count `size`; in every reachable state the
worker count is still `size` and the barrier count equals `size` minus the
number of workers that have exited (each exit decrements it exactly once);
and a worker-exit transition is possible only once the handoff channel is
closed, moving that worker from blocked-receiving to exited and decrementing
the barrier. -/
theorem new_spawns_size_workers (n : Nat) (ms : List Move) (s : PoolState)
    (h : runTrace (New n) ms = some s) :
    (New n).workers = List.replicate n WorkerSt.idle ∧
    (New n).wgCount = n ∧
    s.workers.length = n ∧
    s.wgCount + countExited s = n ∧
    (∀ (i : Nat) (s' : PoolState), step s (Move.workerExit i) = some s' →
      s.workClosed = true ∧ s.workers[i]? = some WorkerSt.idle ∧
      s'.workers[i]? = some WorkerSt.exited ∧ s'.wgCount = s.wgCount - 1 ∧
      countExited s' = countExited s + 1) := by
  have inv := inv_reach h
  refine ⟨rfl, rfl, inv.len, inv.wg, ?_⟩
  intro i s' hstep
  obtain ⟨hcl, heq, rfl⟩ := step_workerExit hstep
  have hc := countP_set_add isExitedW WorkerSt.exited heq
  simp [isExitedW] at hc
  refine ⟨hcl, heq, ?_, rfl, ?_⟩
  · rw [List.getElem?_set_self', heq]
    rfl
  · simp only [countExited]
    omega

theorem new_spawns_size_workers_witness :
    runTrace (New 1) halfShutTrace = some halfShut ∧
    step halfShut (Move.workerExit 0) = some shutWorker ∧
    shutWorker.wgCount = halfShut.wgCount - 1 :=
  ⟨by decide, by decide,
   ((new_spawns_size_workers 1 halfShutTrace halfShut (by decide)).2.2.2.2 0
     shutWorker (by decide)).2.2.2.1⟩

/-- **C6**: the handoff channel is a rendezvous with zero buffering.  A
`handoff` transition is possible only when caller `c` is blocked in its send
and worker `i` is simultaneously blocked in its receive, and it atomically
moves the task from the caller to the worker — the task is never stored
anywhere in between.  Consequently, when every worker is busy, no handoff
transition is enabled: the extra caller stays blocked in `Run`. -/
theorem handoff_is_rendezvous (s s' : PoolState) (c i : Nat) (t : Task) :
    (step s (Move.handoff c i) = some s' →
      lookupA s.callers c = some (CallerSt.sendingWork t) →
      s.workers[i]? = some WorkerSt.idle ∧ s.workClosed = false ∧
      lookupA s'.callers c = some (CallerSt.awaitingRes t) ∧
      s'.workers[i]? = some (WorkerSt.executing t) ∧
      s'.submitted = s.submitted) ∧
    ((∀ w ∈ s.workers, isBusyW w = true) →
      step s (Move.handoff c i) = none) := by
  constructor
  · intro h hl
    obtain ⟨t', hl', hw', hcl, rfl⟩ := step_handoff h
    rw [hl] at hl'
    cases Option.some.inj hl'
    refine ⟨hw', hcl, ?_, ?_, rfl⟩
    · rw [lookupA_updA_self, hl]
      rfl
    · rw [List.getElem?_set_self', hw']
      rfl
  · intro hbusy
    cases hstep : step s (Move.handoff c i) with
    | none => rfl
    | some s₁ =>
      obtain ⟨t', _, hw', _, _⟩ := step_handoff hstep
      have := hbusy _ (List.getElem?_mem hw')
      simp [isBusyW] at this

theorem handoff_is_rendezvous_witness :
    step oneSending (Move.handoff 1 0) = some oneRunning ∧
    lookupA oneRunning.callers 1 = some (CallerSt.awaitingRes ⟨1, none⟩) ∧
    oneRunning.workers[0]? = some (WorkerSt.executing ⟨1, none⟩) :=
  ⟨by decide,
   ((handoff_is_rendezvous oneSending oneRunning 1 0 ⟨1, none⟩).1 (by decide)
     (by decide)).2.2.1,
   ((handoff_is_rendezvous oneSending oneRunning 1 0 ⟨1, none⟩).1 (by decide)
     (by decide)).2.2.2.1⟩

/-- **C7 counterexample**: the claim says a task's failure value is delivered
as the outcome of the `Run` call that submitted that task.  In the concrete
schedule `crossTrace`, the failing task `⟨2, some 5⟩` was submitted by
caller 2, yet its failure `some 5` is returned by caller 1's `Run` (whose own
task's result is `none`), while caller 2 is still blocked waiting. -/
theorem failure_misdelivered :
    runTrace (New 2) crossTrace = some crossState ∧
    lookupA crossState.callers 1 = some (CallerSt.returned ⟨1, none⟩ (some 5)) ∧
    lookupA crossState.callers 2 = some (CallerSt.awaitingRes ⟨2, some 5⟩) ∧
    (⟨1, none⟩ : Task).res ≠ some 5 := by
  refine ⟨by decide, by decide, by decide, by decide⟩

/-- **C7 (amended)**: every failure outcome a `Run` call returns is the
verbatim, unmodified `Task()` result of some submitted task (never wrapped,
never aggregated — though, per the counterexample, not necessarily the
outcome of the caller's own task); and a task finishing (in particular a
failing one) changes none of the pool's own state: channels, barrier,
callers, shutdown contexts and the submission log are untouched. -/
theorem failure_delivered_verbatim (n : Nat) (ms : List Move) (s : PoolState)
    (c : Nat) (t : Task) (e : Nat)
    (h : runTrace (New n) ms = some s)
    (hret : lookupA s.callers c = some (CallerSt.returned t (some e))) :
    (∃ t' ∈ s.submitted, t'.res = some e) ∧
    (∀ (i : Nat) (s' : PoolState), step s (Move.finishTask i) = some s' →
      s'.workClosed = s.workClosed ∧ s'.errClosed = s.errClosed ∧
      s'.wgCount = s.wgCount ∧ s'.callers = s.callers ∧ s'.sds = s.sds ∧
      s'.submitted = s.submitted) := by
  constructor
  · rcases (inv_reach h).retRes c t (some e) hret with hn | hx
    · exact absurd hn (by simp)
    · exact hx
  · intro i s' hstep
    obtain ⟨t', _, rfl⟩ := step_finishTask hstep
    exact ⟨rfl, rfl, rfl, rfl, rfl, rfl⟩

theorem failure_delivered_verbatim_witness :
    runTrace (New 2) crossTrace = some crossState ∧
    step crossState (Move.finishTask 0) = some crossStepped ∧
    crossStepped.callers = crossState.callers ∧
    crossStepped.wgCount = crossState.wgCount :=
  ⟨by decide, by decide,
   ((failure_delivered_verbatim 2 crossTrace crossState 1 ⟨1, none⟩ 5
      (by decide) (by decide)).2 0 crossStepped (by decide)).2.2.2.1,
   ((failure_delivered_verbatim 2 crossTrace crossState 1 ⟨1, none⟩ 5
      (by decide) (by decide)).2 0 crossStepped (by decide)).2.2.1⟩

/-- **C8**: once the `work` channel is closed (i.e. `Shutdown` has run its
`close(p.work)`), a `Run` call's send panics — it neither returns an error
value nor can it ever rendezvous with a worker — and a further `Shutdown`
call's `close(p.work)` panics instead of being a no-op. -/
theorem run_after_shutdown_panics (s : PoolState) (c sd : Nat) (t : Task)
    (hw : s.workClosed = true) :
    (lookupA s.callers c = some (CallerSt.sendingWork t) →
      step s (Move.sendClosedWork c) =
        some { s with callers := updA s.callers c (CallerSt.panicked t) } ∧
      (∀ i : Nat, step s (Move.handoff c i) = none)) ∧
    (lookupA s.sds sd = some SdSt.atCloseWork →
      step s (Move.sdCloseWork sd) =
        some { s with sds := updA s.sds sd SdSt.panicked }) := by
  constructor
  · intro hl
    constructor
    · simp only [step, hl, hw]
      rfl
    · intro i
      cases hstep : step s (Move.handoff c i) with
      | none => rfl
      | some s₁ =>
        obtain ⟨t', _, _, hcl, _⟩ := step_handoff hstep
        rw [hw] at hcl
        exact absurd hcl (by simp)
  · intro hsd
    simp only [step, hsd, hw]
    rfl

theorem run_after_shutdown_panics_witness :
    step postShutdown (Move.sendClosedWork 1) =
      some { postShutdown with
             callers := updA postShutdown.callers 1 (CallerSt.panicked ⟨1, none⟩) } ∧
    step postShutdown (Move.handoff 1 0) = none ∧
    step postShutdown (Move.sdCloseWork 5) =
      some { postShutdown with sds := updA postShutdown.sds 5 SdSt.panicked } :=
  ⟨((run_after_shutdown_panics postShutdown 1 5 ⟨1, none⟩ (by decide)).1
      (by decide)).1,
   ((run_after_shutdown_panics postShutdown 1 5 ⟨1, none⟩ (by decide)).1
      (by decide)).2 0,
   (run_after_shutdown_panics postShutdown 1 5 ⟨1, none⟩ (by decide)).2
      (by decide)⟩

/-- **C10**: `New` does not validate its argument: `New 0` starts zero
workers, its barrier count is zero (and stays zero), so a `Shutdown` that
reaches `wg.Wait()` returns immediately, while no `handoff` transition is
ever enabled in any reachable state — a `Run` call can never be matched by a
receiving worker. -/
theorem new_zero_pool (ms : List Move) (s : PoolState)
    (h : runTrace (New 0) ms = some s) :
    s.workers = [] ∧ s.wgCount = 0 ∧
    (∀ c i : Nat, step s (Move.handoff c i) = none) ∧
    (∀ sd : Nat, lookupA s.sds sd = some SdSt.atWait →
      step s (Move.sdWait sd) =
        some { s with sds := updA s.sds sd SdSt.returned }) := by
  have inv := inv_reach h
  have hnil : s.workers = [] := List.length_eq_zero.mp inv.len
  have hwg : s.wgCount = 0 := by
    have := inv.wg
    omega
  refine ⟨hnil, hwg, ?_, ?_⟩
  · intro c i
    cases hstep : step s (Move.handoff c i) with
    | none => rfl
    | some s₁ =>
      obtain ⟨t', _, hw', _, _⟩ := step_handoff hstep
      rw [hnil] at hw'
      exact absurd hw' (by simp)
  · intro sd hsd
    simp only [step, hsd, hwg]
    rfl

/-- **C9**: in the single-caller regime — along the whole schedule at most
one `Run` call is ever in flight and no `Shutdown` runs concurrently
(`seqOKb`) — every `Run` call that has returned carries exactly the value
produced by its own task's `Task()`. -/
theorem single_caller_run_returns_own_result (n : Nat) (ms : List Move)
    (s : PoolState) (c : Nat) (t : Task) (r : Option Nat)
    (h : runTrace (New n) ms = some s)
    (hseq : seqOKb (New n) ms = true)
    (hret : lookupA s.callers c = some (CallerSt.returned t r)) :
    r = t.res :=
  (seqInv_run (inv_New n) (seqInv_New n) hseq h).retOwn c t r hret

theorem single_caller_run_returns_own_result_witness :
    runTrace (New 1) seqTrace = some seqState ∧
    seqOKb (New 1) seqTrace = true ∧
    lookupA seqState.callers 0 =
      some (CallerSt.returned ⟨0, some 3⟩ (some 3)) ∧
    (some 3 : Option Nat) = (⟨0, some 3⟩ : Task).res :=
  ⟨by decide, by decide, by decide,
   single_caller_run_returns_own_result 1 seqTrace seqState 0 ⟨0, some 3⟩
     (some 3) (by decide) (by decide) (by decide)⟩

theorem new_zero_pool_witness :
    runTrace (New 0) zeroTrace = some zeroState ∧
    zeroState.workers = [] ∧
    step zeroState (Move.sdWait 0) =
      some { zeroState with sds := updA zeroState.sds 0 SdSt.returned } :=
  ⟨by decide, (new_zero_pool zeroTrace zeroState (by decide)).1,
   (new_zero_pool zeroTrace zeroState (by decide)).2.2.2 0 (by decide)⟩

end WorkerPool
